import Mathlib

/-!
# Shallow embedding of the capnp proxy event-loop subsystem

This file embeds the behaviour of `src/interfaces/capnp/proxy.cpp`
(Connection two-phase cleanup, EventLoop post/loop/async dispatcher,
Thread and ThreadMap proxy servers) as executable Lean definitions and
proves the specified ordering, invariant and error-handling properties
about them.

Modelling conventions:
* cleanup / posted / deferred `std::function<void()>` values are opaque
  labels (`Fn := Nat`);
* sequential C++ code that runs callbacks is embedded as a function
  which returns the emitted event trace (`List Ev`) next to the updated
  state, so ordering claims become statements about trace indices;
* `KJ_ASSERT` / `assert` failures and thrown exceptions are embedded as
  `Except.error`;
* a function executed by the loop thread while the `EventLoop` mutex is
  released may mutate the loop's client counter and deferred queue; this
  is modelled by an explicit effect environment
  `eff : Fn → Nat × List Fn → Nat × List Fn`.
-/

namespace BitcoinCapnp

/-- Cleanup / posted / deferred functions are identified by opaque labels. -/
abbrev Fn := Nat

/-- Observable events emitted by the embedded code, used to state ordering
properties of destructors and loops. -/
inductive Ev where
  /-- Event: `Connection::~Connection` running one synchronous cleanup function. -/
  | runSync (f : Fn)
  /-- Event: `Connection::~Connection` moving one asynchronous cleanup function to
  the event loop's deferred queue (`m_loop.m_async_fns.emplace_back`). -/
  | deferAsync (f : Fn)
  /-- Event: `EventLoop::startAsyncThread` being invoked. -/
  | startAsyncThread
  /-- Event: `EventLoop::removeClient` decrementing `m_num_clients`. -/
  | removeClient
  /-- the loop thread running the posted function (`Unlock(lock, *m_post_fn)`). -/
  | runPost (f : Fn)
  /-- Event: `m_cv.notify_all()`. -/
  | notifyAll
  /-- the loop re-evaluating its exit condition after a wake-up. -/
  | exitCheck
  /-- the loop thread consuming one byte from the wake channel. -/
  | wake
  /-- a byte written to the wake channel (`write(m_post_fd, ...)`). -/
  | wakeWrite
  /-- the loop releasing `m_wait_fd` (via `wait_stream = nullptr`). -/
  | closeWaitFd
  /-- the loop closing `m_post_fd` (`::close(m_post_fd)`). -/
  | closePostFd
  /-- Event: `EventLoop::addClient` incrementing `m_num_clients`. -/
  | addClient
  /-- the async dispatcher thread running one deferred function; `clients`
  records `m_num_clients` while it runs, `locked` whether the EventLoop
  mutex is held while it runs. -/
  | runAsync (f : Fn) (clients : Nat) (locked : Bool)
deriving DecidableEq, Repr

/-! ## Connection cleanup lists (proxy.cpp lines 50-124) -/

/-- The cleanup-list state of a `Connection`: the synchronous and
asynchronous cleanup lists (`std::list<std::function<void()>>`). -/
structure Connection where
  m_sync_cleanup_fns : List Fn
  m_async_cleanup_fns : List Fn
deriving DecidableEq, Repr

/-- Embeds `Connection::addSyncCleanup` (lines 108-112): inserts the function at
the front of the synchronous cleanup list
(`m_sync_cleanup_fns.emplace(m_sync_cleanup_fns.begin(), ...)`). -/
def Connection.addSyncCleanup (c : Connection) (fn : Fn) : Connection :=
  { c with m_sync_cleanup_fns := fn :: c.m_sync_cleanup_fns }

/-- Embeds `Connection::addAsyncCleanup` (lines 120-124): inserts the function at
the front of the asynchronous cleanup list. -/
def Connection.addAsyncCleanup (c : Connection) (fn : Fn) : Connection :=
  { c with m_async_cleanup_fns := fn :: c.m_async_cleanup_fns }

/-- First while-loop of `Connection::~Connection` (lines 94-97): pops and
runs synchronous cleanup functions from the front until the list is empty. -/
def drainSyncFns : List Fn → List Ev
  | [] => []
  | f :: rest => Ev.runSync f :: drainSyncFns rest

/-- Second while-loop of `Connection::~Connection` (lines 98-102): pops
asynchronous cleanup functions from the front, appending each to the back
of the event loop's deferred queue (`m_loop.m_async_fns.emplace_back`).
Returns the emitted trace and the updated deferred queue. -/
def moveAsyncFns : List Fn → List Fn → List Ev × List Fn
  | [], q => ([], q)
  | f :: rest, q =>
    let r := moveAsyncFns rest (q ++ [f])
    (Ev.deferAsync f :: r.1, r.2)

/-- Embeds `Connection::~Connection` (lines 50-106): drains the synchronous list,
then moves the asynchronous list into the loop's deferred queue, then calls
`m_loop.startAsyncThread(lock)` and `m_loop.removeClient(lock)`. Returns
the event trace and the loop's updated deferred queue. -/
def Connection.dtor (c : Connection) (loopAsyncFns : List Fn) : List Ev × List Fn :=
  let sync := drainSyncFns c.m_sync_cleanup_fns
  let amove := moveAsyncFns c.m_async_cleanup_fns loopAsyncFns
  (sync ++ amove.1 ++ [Ev.startAsyncThread, Ev.removeClient], amove.2)

/-! ## EventLoop state (proxy.cpp lines 126-236) -/

/-- The mutable state of an `EventLoop` that the claims are about:
the single posted-function slot `m_post_fn`, the deferred-function queue
`m_async_fns`, the client counter `m_num_clients`, and the two wake-channel
descriptors `m_wait_fd` / `m_post_fd`. -/
structure EventLoop where
  m_post_fn : Option Fn
  m_async_fns : List Fn
  m_num_clients : Nat
  m_wait_fd : Int
  m_post_fd : Int
deriving DecidableEq, Repr

/-- Embeds `EventLoop::~EventLoop` (lines 135-148): after joining the async
thread, asserts under the lock that the posted-function slot is empty, the
deferred queue is empty, both descriptors have been reset to `-1`, and the
client counter is zero.  A failed `KJ_ASSERT` is an `Except.error`. -/
def EventLoop.dtor (s : EventLoop) : Except String Unit :=
  if s.m_post_fn ≠ none then .error "KJ_ASSERT m_post_fn == nullptr"
  else if s.m_async_fns ≠ [] then .error "KJ_ASSERT m_async_fns.empty"
  else if s.m_wait_fd ≠ -1 then .error "KJ_ASSERT m_wait_fd == -1"
  else if s.m_post_fd ≠ -1 then .error "KJ_ASSERT m_post_fd == -1"
  else if s.m_num_clients ≠ 0 then .error "KJ_ASSERT m_num_clients == 0"
  else .ok ()

/-- One iteration of the dispatch cycle of `EventLoop::loop`
(lines 159-176), given the number of bytes the blocking
`wait_stream->read(&buffer, 0, 1)` returned.  A one-byte read runs the
posted function (if any) with the lock released and clears the slot, then
notifies all waiters and re-evaluates the exit condition; any other read
size throws `std::logic_error`.  Returns the emitted events, the updated
state, and whether the loop broke out of the cycle. -/
def EventLoop.loopIter (eff : Fn → Nat × List Fn → Nat × List Fn)
    (s : EventLoop) (read_bytes : Nat) :
    Except String (List Ev × EventLoop × Bool) :=
  if read_bytes = 1 then
    let s1 : EventLoop :=
      match s.m_post_fn with
      | some f =>
        let r := eff f (s.m_num_clients, s.m_async_fns)
        { s with m_num_clients := r.1, m_async_fns := r.2, m_post_fn := none }
      | none => s
    let evs : List Ev :=
      (match s.m_post_fn with
       | some f => [Ev.runPost f]
       | none => []) ++ [Ev.notifyAll, Ev.exitCheck]
    if s1.m_num_clients = 0 ∧ s1.m_async_fns = [] then
      .ok (evs, s1, true)
    else
      .ok (evs, s1, false)
  else .error "EventLoop wait_stream closed unexpectedly"

/-- The dispatch cycle of `EventLoop::loop` (lines 159-182) over a finite
stream of read results.  Each successful read emits `Ev.wake`; when the
loop breaks out it releases `m_wait_fd` and closes `m_post_fd`, setting
both stored descriptors to `-1`.  The final `Bool` records whether the
loop exited (`false` means it is still blocked waiting for more bytes). -/
def EventLoop.loopRun (eff : Fn → Nat × List Fn → Nat × List Fn) :
    List Nat → EventLoop → Except String (List Ev × EventLoop × Bool)
  | [], s => .ok ([], s, false)
  | r :: rs, s =>
    match s.loopIter eff r with
    | .error e => .error e
    | .ok (evs, s1, true) =>
      .ok (Ev.wake :: evs ++ [Ev.closeWaitFd, Ev.closePostFd],
           { s1 with m_wait_fd := -1, m_post_fd := -1 }, true)
    | .ok (evs, s1, false) =>
      match EventLoop.loopRun eff rs s1 with
      | .error e => .error e
      | .ok (evs2, s2, ex) => .ok ((Ev.wake :: evs) ++ evs2, s2, ex)

/-- Embeds `EventLoop::removeClient` (lines 201-212) as seen from the dispatcher
thread: asserts `m_num_clients > 0`, decrements it, and when the counter
reaches zero notifies all waiters and writes one byte to the wake channel.
`clients` is the counter value before the decrement (always positive at
the dispatcher's call sites).  Returns the emitted events. -/
def removeClientEvs (clients : Nat) : List Ev :=
  if clients - 1 = 0 then [Ev.removeClient, Ev.notifyAll, Ev.wakeWrite]
  else [Ev.removeClient]

/-- The body of the background dispatcher thread spawned by
`EventLoop::startAsyncThread` (lines 219-234), run for `fuel` loop
iterations.  While the deferred queue is nonempty it pops the front
function, increments the client counter (`addClient`), runs the function
with the mutex released (`Unlock(lock, fn)`), then decrements the counter
(`removeClient`).  With an empty queue it exits if the client counter is
zero, else blocks in `m_cv.wait(lock)`; `ext` supplies the
(counter, queue) state observed after each such wait, modelling mutation
by other threads while the dispatcher sleeps.  Returns the emitted trace,
the final (counter, queue) state, and whether the thread exited its loop. -/
def asyncThreadRun : Nat → List (Nat × List Fn) → Nat → List Fn →
    List Ev × Nat × List Fn × Bool
  | 0, _, clients, q => ([], clients, q, false)
  | Nat.succ fuel, ext, clients, q =>
    match q with
    | f :: rest =>
      let evs := Ev.addClient :: Ev.runAsync f (clients + 1) false ::
        removeClientEvs (clients + 1)
      let r := asyncThreadRun fuel ext clients rest
      (evs ++ r.1, r.2)
    | [] =>
      if clients = 0 then ([], 0, [], true)
      else
        match ext with
        | [] => ([], clients, [], false)
        | (c2, q2) :: ext2 => asyncThreadRun fuel ext2 c2 q2

/-- The dispatcher trace consists of complete
`addClient / runAsync / removeClient` blocks: each deferred function is
removed and run one at a time, bracketed by its own client-count
increment and decrement. -/
inductive DispatchBlocks : List Ev → Prop
  | nil : DispatchBlocks []
  | block (f : Fn) (n : Nat) (tl : List Ev) : DispatchBlocks tl →
      DispatchBlocks (Ev.addClient :: Ev.runAsync f n false :: (removeClientEvs n ++ tl))

/-! ## Thread and ThreadMap proxy servers (proxy.cpp lines 249-317) -/

/-- Embeds `Waiter` state: the single pending-function slot `m_fn`. -/
structure Waiter where
  m_fn : Option Fn
deriving DecidableEq, Repr

/-- The thread-local `ThreadContext` (`g_thread_context`): the logical
thread name, the optional exclusively-owned `Waiter`, and the
per-connection capability maps `request_threads` / `callback_threads`
(modelled as opaque entry lists, since the destructor only ever clears
them wholesale). -/
structure ThreadContext where
  thread_name : String
  waiter : Option Waiter
  request_threads : List Fn
  callback_threads : List Fn
deriving DecidableEq, Repr

/-- The state owned by `ProxyServer<Thread>`: its `ThreadContext` and the
wrapped native thread handle, represented by whether it is joinable. -/
structure ThreadProxyServer where
  m_thread_context : ThreadContext
  m_thread_joinable : Bool
deriving DecidableEq, Repr

/-- Events emitted by `ProxyServer<Thread>::~ProxyServer` and by the
release of a Thread capability. -/
inductive ThreadEv where
  /-- the Connection's thread-table entry being removed (capability release). -/
  | removeTableEntry
  /-- Event: `std::unique_lock<std::mutex> lock(m_thread_context.waiter->m_mutex)`. -/
  | lockWaiter
  /-- Event: `waiter = std::move(m_thread_context.waiter)` — the shutdown signal. -/
  | clearWaiterPtr
  /-- Event: `assert(!waiter->m_fn)` — no call mid-flight. -/
  | assertIdle
  /-- Event: `request_threads.clear(); callback_threads.clear()`. -/
  | clearMaps
  /-- Event: `waiter->m_cv.notify_all()`. -/
  | notifyWaiter
  /-- the lock scope ending. -/
  | unlockWaiter
  /-- Event: `m_thread.join()`. -/
  | joinThread
deriving DecidableEq, Repr

/-- The wait predicate of the worker thread parked in `makeThread`
(line 303): `[] { return !g_thread_context.waiter; }` — the thread wakes
up for good once its context's waiter pointer has been cleared. -/
def workerWaitDone (ctx : ThreadContext) : Bool := ctx.waiter.isNone

/-- Embeds `ProxyServer<Thread>::~ProxyServer` (lines 255-282).  If the wrapped
thread is not joinable it returns immediately.  Otherwise it asserts the
waiter exists, locks the waiter's mutex, moves the waiter pointer out of
the context (the shutdown signal), asserts no call is mid-flight
(`!waiter->m_fn`), clears both per-thread capability maps, notifies the
waiter's condition variable, releases the lock, and joins the thread
(after which the handle is no longer joinable). -/
def ThreadProxyServer.dtor (s : ThreadProxyServer) :
    Except String (List ThreadEv × ThreadProxyServer) :=
  if !s.m_thread_joinable then .ok ([], s)
  else
    match s.m_thread_context.waiter with
    | none => .error "assert m_thread_context.waiter.get()"
    | some w =>
      if w.m_fn ≠ none then .error "assert !waiter->m_fn"
      else
        .ok ([ThreadEv.lockWaiter, ThreadEv.clearWaiterPtr, ThreadEv.assertIdle,
              ThreadEv.clearMaps, ThreadEv.notifyWaiter, ThreadEv.unlockWaiter,
              ThreadEv.joinThread],
             { m_thread_context :=
                 { s.m_thread_context with
                   waiter := none, request_threads := [], callback_threads := [] },
               m_thread_joinable := false })

/-- The `ThreadContext` published by the worker thread spawned in
`ProxyServer<ThreadMap>::makeThread` (lines 296-304): its thread name is
the executable-derived name (`ThreadName(m_connection.m_loop.m_exe_name)`,
supplied here as `threadNameFn` since `ThreadName` is defined outside this
file's sources) followed by `" (from " + from + ")"`, and it owns a fresh
idle `Waiter`.  The thread then parks on `workerWaitDone`. -/
def makeThreadWorkerInit (threadNameFn : String → String)
    (exe_name from_name : String) : ThreadContext :=
  { thread_name := threadNameFn exe_name ++ " (from " ++ from_name ++ ")",
    waiter := some { m_fn := none },
    request_threads := [], callback_threads := [] }

/-- Embeds `ProxyServer<ThreadMap>::makeThread` (lines 292-309): spawns the
worker thread, wraps the published context and the joinable thread handle
in a `ProxyServer<Thread>`, and stores the resulting capability in the
Connection's thread table.  Modelled from the spec: the thread table
(`m_connection.m_threads`, declared in proxy-io.h which is not among the
sources) is "a capability table mapping thread names to live Thread-proxy
handles"; we key it by the caller-supplied name. -/
def makeThread (threadNameFn : String → String) (exe_name : String)
    (table : List (String × ThreadProxyServer)) (from_name : String) :
    List (String × ThreadProxyServer) × ThreadProxyServer :=
  let srv : ThreadProxyServer :=
    { m_thread_context := makeThreadWorkerInit threadNameFn exe_name from_name,
      m_thread_joinable := true }
  (table ++ [(from_name, srv)], srv)

/-- Modelled from the spec: destroying the Thread capability returned by
`makeThread` removes the Connection's thread-table entry and invokes
`ProxyServer<Thread>::~ProxyServer` on the stored proxy (capnp drops the
server object when its capability is released; the table mechanics live in
proxy-io.h, outside the sources).  Returns the event trace, the table
after removal, and the destroyed proxy's final state. -/
def makeThreadThenDestroy (threadNameFn : String → String)
    (exe_name from_name : String) :
    Except String (List ThreadEv × List (String × ThreadProxyServer) × ThreadProxyServer) :=
  let r := makeThread threadNameFn exe_name [] from_name
  let table2 := r.1.filter (fun p => !(p.1 == from_name))
  match r.2.dtor with
  | .error e => .error e
  | .ok (evs, srv2) => .ok (ThreadEv.removeTableEntry :: evs, table2, srv2)

/-- Embeds `LongThreadName` (lines 314-317): returns the thread-local
`thread_name` when non-empty, otherwise falls back to the
executable-derived name. -/
def LongThreadName (threadNameFn : String → String) (exe_name : String)
    (ctx : ThreadContext) : String :=
  if ctx.thread_name = "" then threadNameFn exe_name else ctx.thread_name

/-! ## `EventLoop::post` as a multi-thread transition system (lines 159-197)

`post` callers are indexed by `Fin n`; caller `i` posts the distinct
function labelled `i`.  Each atomic step corresponds to a region of the
code executed while holding the `EventLoop` mutex (or a lone syscall):
* `install`  — the `m_cv.wait(lock, [this] ... m_post_fn == nullptr)`
  predicate passing together with `m_post_fn = &fn` (lines 190-191);
* `writeByte` — the unlocked `write(m_post_fd, &buffer, 1)` (lines 192-195);
* `consume`  — the loop thread reading one byte and, when `m_post_fn` is
  set, running it and then clearing the slot (lines 160-166); running and
  clearing are one atomic step here because no other thread's wait
  predicate can pass while the slot still holds the running function;
* `retrn`    — the caller's `m_cv.wait(lock, ... m_post_fn != &fn)`
  predicate passing, after which `post` returns (line 196);
* `selfPost` — a call made on the loop thread itself, which executes the
  function synchronously and returns at once (lines 186-188). -/

/-- Program counter of one `post` invocation. -/
inductive CallerPc where
  | start | installed | wrote | done
deriving DecidableEq, Repr

/-- Global state of one `EventLoop`'s post protocol with `n` pending
`post` invocations: the single slot `m_post_fn`, the number of unread
wake-channel bytes, each invocation's program counter, and how many times
each invocation's function has been executed. -/
structure PostState (n : Nat) where
  m_post_fn : Option (Fin n)
  wake_bytes : Nat
  pc : Fin n → CallerPc
  runs : Fin n → Nat

/-- Which thread performs a step: one of the posting callers, or the
event-loop thread. -/
inductive Actor (n : Nat) where
  | caller (i : Fin n)
  | loopThread
deriving DecidableEq, Repr

/-- Atomic steps of the post protocol. -/
inductive PostStep (n : Nat) : Actor n → PostState n → PostState n → Prop where
  | install (i : Fin n) (s : PostState n)
      (h1 : s.pc i = CallerPc.start) (h2 : s.m_post_fn = none) :
      PostStep n (Actor.caller i) s
        { s with m_post_fn := some i, pc := Function.update s.pc i CallerPc.installed }
  | writeByte (i : Fin n) (s : PostState n) (h1 : s.pc i = CallerPc.installed) :
      PostStep n (Actor.caller i) s
        { s with wake_bytes := s.wake_bytes + 1,
                 pc := Function.update s.pc i CallerPc.wrote }
  | consume (s : PostState n) (h : 0 < s.wake_bytes) :
      PostStep n Actor.loopThread s
        { s with wake_bytes := s.wake_bytes - 1, m_post_fn := none,
                 runs := match s.m_post_fn with
                         | some j => Function.update s.runs j (s.runs j + 1)
                         | none => s.runs }
  | retrn (i : Fin n) (s : PostState n)
      (h1 : s.pc i = CallerPc.wrote) (h2 : s.m_post_fn ≠ some i) :
      PostStep n (Actor.caller i) s
        { s with pc := Function.update s.pc i CallerPc.done }
  | selfPost (i : Fin n) (s : PostState n) (h1 : s.pc i = CallerPc.start) :
      PostStep n Actor.loopThread s
        { s with pc := Function.update s.pc i CallerPc.done,
                 runs := Function.update s.runs i (s.runs i + 1) }

/-- Initial state: empty slot, no unread bytes, every invocation about to
call `post`, nothing executed yet. -/
def PostInit (n : Nat) : PostState n :=
  { m_post_fn := none, wake_bytes := 0, pc := fun _ => CallerPc.start,
    runs := fun _ => 0 }

/-- States reachable by interleaving post-protocol steps. -/
inductive PostReach (n : Nat) : PostState n → Prop where
  | init : PostReach n (PostInit n)
  | step (a : Actor n) (s s' : PostState n) :
      PostReach n s → PostStep n a s s' → PostReach n s'

/-- Caller `i` has installed its function but the function has not yet
been executed: the posted call is "in flight". -/
def InFlight {n : Nat} (s : PostState n) (i : Fin n) : Prop :=
  (s.pc i = CallerPc.installed ∨ s.pc i = CallerPc.wrote) ∧ s.runs i = 0

/-- The inductive invariant of the post protocol. -/
def PostInv (n : Nat) (s : PostState n) : Prop :=
  (∀ i, s.pc i = CallerPc.start → s.m_post_fn ≠ some i ∧ s.runs i = 0) ∧
  (∀ i, s.pc i = CallerPc.installed ∨ s.pc i = CallerPc.wrote →
     (s.m_post_fn = some i ∧ s.runs i = 0) ∨ (s.m_post_fn ≠ some i ∧ s.runs i = 1)) ∧
  (∀ i, s.pc i = CallerPc.done → s.m_post_fn ≠ some i ∧ s.runs i = 1) ∧
  (∀ i, s.m_post_fn = some i →
     s.pc i = CallerPc.installed ∨ s.pc i = CallerPc.wrote)

/-- A four-step demonstration run for one caller: install, write the wake
byte, loop-thread consume (which runs the function), return. -/
def postDemo1 : PostState 1 :=
  { PostInit 1 with
    m_post_fn := some 0,
    pc := Function.update (PostInit 1).pc 0 CallerPc.installed }

def postDemo2 : PostState 1 :=
  { postDemo1 with
    wake_bytes := postDemo1.wake_bytes + 1,
    pc := Function.update postDemo1.pc 0 CallerPc.wrote }

def postDemo3 : PostState 1 :=
  { postDemo2 with
    wake_bytes := postDemo2.wake_bytes - 1,
    m_post_fn := none,
    runs := match postDemo2.m_post_fn with
            | some j => Function.update postDemo2.runs j (postDemo2.runs j + 1)
            | none => postDemo2.runs }

def postDemo4 : PostState 1 :=
  { postDemo3 with pc := Function.update postDemo3.pc 0 CallerPc.done }

/-! ## Theorems -/

/-- C6: An EventLoop may only be destroyed when its posted-function slot is
empty, its deferred-action queue is empty, its client counter is zero, and
both wake-channel descriptors have been closed (set to -1); destruction
while any of these conditions fails is rejected by assertion. -/
theorem eventLoop_dtor_requires_quiescence (s : EventLoop) :
    (s.dtor = Except.ok () ↔
      s.m_post_fn = none ∧ s.m_async_fns = [] ∧ s.m_num_clients = 0 ∧
        s.m_wait_fd = -1 ∧ s.m_post_fd = -1) ∧
    (¬(s.m_post_fn = none ∧ s.m_async_fns = [] ∧ s.m_num_clients = 0 ∧
        s.m_wait_fd = -1 ∧ s.m_post_fd = -1) →
      ∃ msg, s.dtor = Except.error msg) := by
  unfold EventLoop.dtor
  constructor
  · split_ifs <;> simp_all
  · split_ifs <;> simp_all

/-- C6 witness: a state with one live client (all else quiescent) is
rejected by the destructor's assertions. -/
theorem eventLoop_dtor_requires_quiescence_witness :
    ∃ msg, EventLoop.dtor ⟨none, [], 1, -1, -1⟩ = Except.error msg :=
  (eventLoop_dtor_requires_quiescence ⟨none, [], 1, -1, -1⟩).2 (by simp)

/-- C8: when the blocking read on the wake channel returns anything other
than exactly one byte, `EventLoop::loop` throws (fatal) instead of
continuing the dispatch cycle; every one-byte read continues normally. -/
theorem eventLoop_loop_read_fatal (eff : Fn → Nat × List Fn → Nat × List Fn)
    (s : EventLoop) (read_bytes : Nat) :
    (read_bytes ≠ 1 →
      s.loopIter eff read_bytes =
        Except.error "EventLoop wait_stream closed unexpectedly") ∧
    (read_bytes = 1 →
      ∃ evs s1 ex, s.loopIter eff read_bytes = Except.ok (evs, s1, ex)) := by
  constructor
  · intro h
    unfold EventLoop.loopIter
    simp [h]
  · rintro rfl
    unfold EventLoop.loopIter
    rw [if_pos rfl]
    split <;> (dsimp only; split <;> exact ⟨_, _, _, rfl⟩)

/-- C8 witness: a zero-byte read is fatal; a one-byte read is not. -/
theorem eventLoop_loop_read_fatal_witness :
    EventLoop.loopIter (fun _ p => p) ⟨none, [], 0, 3, 4⟩ 0 =
        Except.error "EventLoop wait_stream closed unexpectedly" ∧
      ∃ evs s1 ex, EventLoop.loopIter (fun _ p => p) ⟨none, [], 0, 3, 4⟩ 1 =
        Except.ok (evs, s1, ex) :=
  ⟨(eventLoop_loop_read_fatal (fun _ p => p) ⟨none, [], 0, 3, 4⟩ 0).1 (by decide),
   (eventLoop_loop_read_fatal (fun _ p => p) ⟨none, [], 0, 3, 4⟩ 1).2 rfl⟩

/-- C10: destroying a Thread proxy whose wrapped native thread handle is
not joinable is a no-op: no events, no state change, no join. -/
theorem threadProxy_dtor_not_joinable_noop (s : ThreadProxyServer)
    (h : s.m_thread_joinable = false) : s.dtor = Except.ok ([], s) := by
  unfold ThreadProxyServer.dtor
  simp [h]

/-- C10 witness: a non-joinable Thread proxy with populated context is
left untouched. -/
theorem threadProxy_dtor_not_joinable_noop_witness :
    ThreadProxyServer.dtor ⟨⟨"w", some ⟨some 7⟩, [1], [2]⟩, false⟩ =
      Except.ok ([], ⟨⟨"w", some ⟨some 7⟩, [1], [2]⟩, false⟩) :=
  threadProxy_dtor_not_joinable_noop ⟨⟨"w", some ⟨some 7⟩, [1], [2]⟩, false⟩ rfl

/-- The worker thread name built in `makeThread` is never the empty
string (it ends in a closing parenthesis). -/
theorem makeThread_name_ne_empty (a b : String) :
    a ++ " (from " ++ b ++ ")" ≠ "" := by
  intro h
  have hd := congrArg String.data h
  simp [String.data_append] at hd

/-- C9: every worker thread created by `ThreadMap.makeThread` on behalf of
a remote caller named `org` gets thread name `ThreadName(exe) + " (from "
+ org + ")"`, and `LongThreadName` returns the stored thread-local name
whenever it is non-empty, falling back to the executable-derived name only
when it is empty — so such workers are tagged with the "(from org)"
suffix. -/
theorem makeThread_long_thread_name (tn : String → String) (exe org : String) :
    (makeThreadWorkerInit tn exe org).thread_name =
        tn exe ++ " (from " ++ org ++ ")" ∧
      LongThreadName tn exe (makeThreadWorkerInit tn exe org) =
        tn exe ++ " (from " ++ org ++ ")" ∧
      (∀ ctx : ThreadContext, ctx.thread_name ≠ "" →
        LongThreadName tn exe ctx = ctx.thread_name) ∧
      (∀ ctx : ThreadContext, ctx.thread_name = "" →
        LongThreadName tn exe ctx = tn exe) := by
  refine ⟨rfl, ?_, ?_, ?_⟩
  · unfold LongThreadName makeThreadWorkerInit
    simp [makeThread_name_ne_empty]
  · intro ctx h
    unfold LongThreadName
    simp [h]
  · intro ctx h
    unfold LongThreadName
    simp [h]

/-- C9 witness: with the identity in place of the executable-derived
name, the worker created for caller "rpc" is named and logged as
"exe (from rpc)". -/
theorem makeThread_long_thread_name_witness :
    (makeThreadWorkerInit (fun s => s) "exe" "rpc").thread_name =
        "exe" ++ " (from " ++ "rpc" ++ ")" ∧
      LongThreadName (fun s => s) "exe"
          (makeThreadWorkerInit (fun s => s) "exe" "rpc") =
        "exe" ++ " (from " ++ "rpc" ++ ")" ∧
      (∀ ctx : ThreadContext, ctx.thread_name ≠ "" →
        LongThreadName (fun s => s) "exe" ctx = ctx.thread_name) ∧
      (∀ ctx : ThreadContext, ctx.thread_name = "" →
        LongThreadName (fun s => s) "exe" ctx = "exe") :=
  makeThread_long_thread_name (fun s => s) "exe" "rpc"

/-! ### Connection destructor trace structure -/

theorem drainSyncFns_eq_map (l : List Fn) : drainSyncFns l = l.map Ev.runSync := by
  induction l with
  | nil => rfl
  | cons f r ih => simp [drainSyncFns, ih]

theorem moveAsyncFns_fst (l : List Fn) (q : List Fn) :
    (moveAsyncFns l q).1 = l.map Ev.deferAsync := by
  induction l generalizing q with
  | nil => rfl
  | cons f r ih => simp [moveAsyncFns, ih]

theorem moveAsyncFns_snd (l : List Fn) (q : List Fn) :
    (moveAsyncFns l q).2 = q ++ l := by
  induction l generalizing q with
  | nil => simp [moveAsyncFns]
  | cons f r ih => simp [moveAsyncFns, ih]

theorem connection_dtor_trace (c : Connection) (q : List Fn) :
    (c.dtor q).1 = c.m_sync_cleanup_fns.map Ev.runSync ++
      (c.m_async_cleanup_fns.map Ev.deferAsync ++
        [Ev.startAsyncThread, Ev.removeClient]) := by
  simp [Connection.dtor, drainSyncFns_eq_map, moveAsyncFns_fst]

/-- An index that resolves to an element not occurring in the appended
tail lies inside the first part. -/
theorem lt_length_of_getElem?_append {A rest : List Ev} {i : Nat} {e : Ev}
    (h : (A ++ rest)[i]? = some e) (he : e ∉ rest) : i < A.length := by
  by_contra hi
  push_neg at hi
  rw [List.getElem?_append_right hi] at h
  exact he (List.getElem?_mem h)

/-- An index of the appended list that resolves to an element whose shape
cannot occur in the mapped first part lies in the tail. -/
theorem map_length_le_of_getElem? {l : List Fn} {g : Fn → Ev} {rest : List Ev}
    {i : Nat} {e : Ev} (h : (l.map g ++ rest)[i]? = some e)
    (he : ∀ f : Fn, e ≠ g f) : l.length ≤ i := by
  by_contra hi
  push_neg at hi
  rw [List.getElem?_append, if_pos (by simpa using hi), List.getElem?_map] at h
  rcases Option.map_eq_some'.1 h with ⟨f, _, hf⟩
  exact he f hf.symm

/-- C1: in `Connection::~Connection`, every synchronous cleanup function
runs strictly before any asynchronous cleanup function is transferred to
the deferred queue and before the background dispatcher is started; the
asynchronous list is transferred entirely before `startAsyncThread` is
called; and after the destructor the loop's deferred queue is the old
queue with the async cleanup list appended. -/
theorem connection_dtor_sync_before_async (c : Connection) (q : List Fn)
    (i j : Nat) (f g : Fn) :
    ((c.dtor q).1[i]? = some (Ev.runSync f) →
      ((c.dtor q).1[j]? = some (Ev.deferAsync g) ∨
        (c.dtor q).1[j]? = some Ev.startAsyncThread) → i < j) ∧
    ((c.dtor q).1[i]? = some (Ev.deferAsync g) →
      (c.dtor q).1[j]? = some Ev.startAsyncThread → i < j) ∧
    (c.dtor q).2 = q ++ c.m_async_cleanup_fns := by
  rw [connection_dtor_trace]
  refine ⟨?_, ?_, by simp [Connection.dtor, moveAsyncFns_snd]⟩
  · intro hi hj
    have h1 : i < c.m_sync_cleanup_fns.length := by
      simpa using lt_length_of_getElem?_append hi (by simp)
    have h2 : c.m_sync_cleanup_fns.length ≤ j := by
      rcases hj with hj | hj
      · exact map_length_le_of_getElem? hj (by simp)
      · exact map_length_le_of_getElem? hj (by simp)
    omega
  · intro hi hj
    rw [← List.append_assoc] at hi hj
    have h1 : i < (c.m_sync_cleanup_fns.map Ev.runSync ++
        c.m_async_cleanup_fns.map Ev.deferAsync).length :=
      lt_length_of_getElem?_append hi (by simp)
    have h2 : (c.m_sync_cleanup_fns.map Ev.runSync ++
        c.m_async_cleanup_fns.map Ev.deferAsync).length ≤ j := by
      by_contra hlt
      push_neg at hlt
      rw [List.getElem?_append, if_pos (by simpa using hlt)] at hj
      have := List.getElem?_mem hj
      simp at this
    omega

/-- C1 witness: with one sync and one async cleanup registered, the sync
action (index 0) precedes the async transfer (index 1) and the dispatcher
start, and the async function lands on the deferred queue. -/
theorem connection_dtor_sync_before_async_witness :
    ((Connection.dtor ⟨[10], [20]⟩ []).1[0]? = some (Ev.runSync 10) →
      ((Connection.dtor ⟨[10], [20]⟩ []).1[1]? = some (Ev.deferAsync 20) ∨
        (Connection.dtor ⟨[10], [20]⟩ []).1[1]? = some Ev.startAsyncThread) →
      (0 : Nat) < 1) ∧
    ((Connection.dtor ⟨[10], [20]⟩ []).1[0]? = some (Ev.deferAsync 20) →
      (Connection.dtor ⟨[10], [20]⟩ []).1[1]? = some Ev.startAsyncThread →
      (0 : Nat) < 1) ∧
    (Connection.dtor ⟨[10], [20]⟩ []).2 = [] ++ [20] :=
  connection_dtor_sync_before_async ⟨[10], [20]⟩ [] 0 1 10 20

/-! ### Cleanup registration order -/

/-- The functions a destructor trace runs synchronously, in order. -/
def syncRunOrder (tr : List Ev) : List Fn :=
  tr.filterMap (fun e => match e with | Ev.runSync f => some f | _ => none)

/-- The functions a destructor trace hands to the deferred queue, in order. -/
def deferOrder (tr : List Ev) : List Fn :=
  tr.filterMap (fun e => match e with | Ev.deferAsync f => some f | _ => none)

/-- Registering a list of cleanup functions in order, oldest first. -/
def registerSyncAll (c : Connection) (regs : List Fn) : Connection :=
  regs.foldl Connection.addSyncCleanup c

def registerAsyncAll (c : Connection) (regs : List Fn) : Connection :=
  regs.foldl Connection.addAsyncCleanup c

theorem registerSyncAll_fns (c : Connection) (regs : List Fn) :
    (registerSyncAll c regs).m_sync_cleanup_fns =
      regs.reverse ++ c.m_sync_cleanup_fns ∧
    (registerSyncAll c regs).m_async_cleanup_fns = c.m_async_cleanup_fns := by
  induction regs generalizing c with
  | nil => simp [registerSyncAll]
  | cons r rs ih =>
    have := ih (c.addSyncCleanup r)
    simp only [registerSyncAll, List.foldl_cons] at this ⊢
    simpa [Connection.addSyncCleanup] using this

theorem registerAsyncAll_fns (c : Connection) (regs : List Fn) :
    (registerAsyncAll c regs).m_async_cleanup_fns =
      regs.reverse ++ c.m_async_cleanup_fns ∧
    (registerAsyncAll c regs).m_sync_cleanup_fns = c.m_sync_cleanup_fns := by
  induction regs generalizing c with
  | nil => simp [registerAsyncAll]
  | cons r rs ih =>
    have := ih (c.addAsyncCleanup r)
    simp only [registerAsyncAll, List.foldl_cons] at this ⊢
    simpa [Connection.addAsyncCleanup] using this

theorem syncRunOrder_map_runSync (l : List Fn) :
    syncRunOrder (l.map Ev.runSync) = l := by
  induction l with
  | nil => rfl
  | cons f r ih => simpa [syncRunOrder, List.filterMap_cons] using ih

theorem syncRunOrder_map_deferAsync (l : List Fn) :
    syncRunOrder (l.map Ev.deferAsync) = [] := by
  induction l with
  | nil => rfl
  | cons f r ih => simp [syncRunOrder, List.filterMap_cons, ih]

theorem deferOrder_map_runSync (l : List Fn) :
    deferOrder (l.map Ev.runSync) = [] := by
  induction l with
  | nil => rfl
  | cons f r ih => simp [deferOrder, List.filterMap_cons, ih]

theorem deferOrder_map_deferAsync (l : List Fn) :
    deferOrder (l.map Ev.deferAsync) = l := by
  induction l with
  | nil => rfl
  | cons f r ih => simpa [deferOrder, List.filterMap_cons] using ih

theorem syncRunOrder_dtor (c : Connection) (q : List Fn) :
    syncRunOrder (c.dtor q).1 = c.m_sync_cleanup_fns := by
  rw [connection_dtor_trace]
  simp only [syncRunOrder, List.filterMap_append] at *
  rw [← syncRunOrder, ← syncRunOrder, syncRunOrder_map_runSync,
    syncRunOrder_map_deferAsync]
  simp [List.filterMap_cons]

theorem deferOrder_dtor (c : Connection) (q : List Fn) :
    deferOrder (c.dtor q).1 = c.m_async_cleanup_fns := by
  rw [connection_dtor_trace]
  simp only [deferOrder, List.filterMap_append] at *
  rw [← deferOrder, ← deferOrder, deferOrder_map_runSync,
    deferOrder_map_deferAsync]
  simp [List.filterMap_cons]

/-- C7: both add operations insert at the front of their list; for any
sequence of registrations (oldest first) on an initially clean connection,
the destructor runs the synchronous list in reverse registration order
(most recently registered first) and hands the asynchronous list to the
deferred queue in the same most-recent-first order. -/
theorem connection_cleanup_lifo (regsSync regsAsync q : List Fn) :
    (∀ (c : Connection) (f : Fn),
      (c.addSyncCleanup f).m_sync_cleanup_fns = f :: c.m_sync_cleanup_fns ∧
      (c.addAsyncCleanup f).m_async_cleanup_fns = f :: c.m_async_cleanup_fns) ∧
    syncRunOrder ((registerAsyncAll (registerSyncAll ⟨[], []⟩ regsSync)
        regsAsync).dtor q).1 = regsSync.reverse ∧
    deferOrder ((registerAsyncAll (registerSyncAll ⟨[], []⟩ regsSync)
        regsAsync).dtor q).1 = regsAsync.reverse ∧
    ((registerAsyncAll (registerSyncAll ⟨[], []⟩ regsSync)
        regsAsync).dtor q).2 = q ++ regsAsync.reverse := by
  refine ⟨fun c f => ⟨rfl, rfl⟩, ?_, ?_, ?_⟩
  · rw [syncRunOrder_dtor, (registerAsyncAll_fns _ _).2,
      (registerSyncAll_fns _ _).1]
    simp
  · rw [deferOrder_dtor, (registerAsyncAll_fns _ _).1,
      (registerSyncAll_fns _ _).2]
    simp
  · rw [Connection.dtor, moveAsyncFns_snd, (registerAsyncAll_fns _ _).1,
      (registerSyncAll_fns _ _).2]
    simp

/-! ### EventLoop::loop exit discipline -/

theorem loopIter_ok_facts (eff : Fn → Nat × List Fn → Nat × List Fn)
    (s : EventLoop) (r : Nat) (evs : List Ev) (s1 : EventLoop) (ex : Bool)
    (h : s.loopIter eff r = Except.ok (evs, s1, ex)) :
    evs.count Ev.exitCheck = 1 ∧ evs.count Ev.wake = 0 ∧
    evs.count Ev.closeWaitFd = 0 ∧ evs.count Ev.closePostFd = 0 ∧
    (ex = true → s1.m_num_clients = 0 ∧ s1.m_async_fns = []) ∧
    s1.m_wait_fd = s.m_wait_fd ∧ s1.m_post_fd = s.m_post_fd := by
  unfold EventLoop.loopIter at h
  by_cases hr : r = 1
  · rw [if_pos hr] at h
    rcases hpf : s.m_post_fn with _ | f <;> rw [hpf] at h <;> dsimp only at h <;>
        split at h <;>
        simp only [Except.ok.injEq, Prod.mk.injEq] at h <;>
        obtain ⟨rfl, rfl, rfl⟩ := h <;>
      simp_all [List.count_cons]
  · rw [if_neg hr] at h
    exact absurd h (by simp)

/-- C3: whenever the dispatch cycle of `EventLoop::loop` exits, the
live-client counter is zero and the deferred queue is empty (the loop
never exits while either is nonzero/nonempty), the exit condition having
been re-evaluated after every wake-up (one `exitCheck` per consumed wake
byte), and on exit both wake-channel descriptors are closed exactly once
and both stored descriptors are set to `-1`. -/
theorem eventLoop_loop_exit (eff : Fn → Nat × List Fn → Nat × List Fn)
    (reads : List Nat) (s : EventLoop) (tr : List Ev) (s2 : EventLoop) :
    (EventLoop.loopRun eff reads s = Except.ok (tr, s2, true) →
      s2.m_num_clients = 0 ∧ s2.m_async_fns = [] ∧
      s2.m_wait_fd = -1 ∧ s2.m_post_fd = -1 ∧
      tr.count Ev.closeWaitFd = 1 ∧ tr.count Ev.closePostFd = 1 ∧
      tr.count Ev.exitCheck = tr.count Ev.wake) ∧
    (EventLoop.loopRun eff reads s = Except.ok (tr, s2, false) →
      tr.count Ev.closeWaitFd = 0 ∧ tr.count Ev.closePostFd = 0 ∧
      tr.count Ev.exitCheck = tr.count Ev.wake) := by
  induction reads generalizing s tr s2 with
  | nil =>
    constructor
    · intro h
      simp [EventLoop.loopRun] at h
    · intro h
      unfold EventLoop.loopRun at h
      injection h with h1
      obtain ⟨rfl, rfl, -⟩ := Prod.mk.injEq .. ▸ h1
      simp
  | cons r rs ih =>
    constructor
    · intro h
      unfold EventLoop.loopRun at h
      rcases hit : EventLoop.loopIter eff s r with e | ⟨evs, s1, ex⟩ <;>
        rw [hit] at h
      · exact absurd h (by simp)
      obtain ⟨hc1, hc2, hc3, hc4, hex, -, -⟩ :=
        loopIter_ok_facts eff s r evs s1 ex hit
      cases ex with
      | true =>
        dsimp only at h
        simp only [Except.ok.injEq, Prod.mk.injEq] at h
        obtain ⟨htr, hs, -⟩ := h
        subst htr
        subst hs
        obtain ⟨hcl, hacl⟩ := hex rfl
        refine ⟨hcl, hacl, rfl, rfl, ?_, ?_, ?_⟩ <;>
          simp [List.count_cons, List.count_append, hc1, hc2, hc3, hc4]
      | false =>
        dsimp only at h
        rcases hrun : EventLoop.loopRun eff rs s1 with e | ⟨evs2, s3, ex2⟩ <;>
          rw [hrun] at h
        · exact absurd h (by simp)
        simp only [Except.ok.injEq, Prod.mk.injEq] at h
        obtain ⟨htr, hs, hext⟩ := h
        subst htr
        subst hs
        rw [hext] at hrun
        obtain ⟨m1, m2, m3, m4, m5, m6, m7⟩ := (ih s1 evs2 s3).1 hrun
        refine ⟨m1, m2, m3, m4, ?_, ?_, ?_⟩ <;>
          simp [List.count_cons, List.count_append, hc1, hc2, hc3, hc4,
            m5, m6, m7, Nat.add_comm]
    · intro h
      unfold EventLoop.loopRun at h
      rcases hit : EventLoop.loopIter eff s r with e | ⟨evs, s1, ex⟩ <;>
        rw [hit] at h
      · exact absurd h (by simp)
      obtain ⟨hc1, hc2, hc3, hc4, -, -, -⟩ :=
        loopIter_ok_facts eff s r evs s1 ex hit
      cases ex with
      | true =>
        dsimp only at h
        simp only [Except.ok.injEq, Prod.mk.injEq] at h
        exact absurd h.2.2 (by simp)
      | false =>
        dsimp only at h
        rcases hrun : EventLoop.loopRun eff rs s1 with e | ⟨evs2, s3, ex2⟩ <;>
          rw [hrun] at h
        · exact absurd h (by simp)
        simp only [Except.ok.injEq, Prod.mk.injEq] at h
        obtain ⟨htr, hs, hext⟩ := h
        subst htr
        subst hs
        rw [hext] at hrun
        obtain ⟨m1, m2, m3⟩ := (ih s1 evs2 s3).2 hrun
        refine ⟨?_, ?_, ?_⟩ <;>
          simp [List.count_cons, List.count_append, hc1, hc2, hc3, hc4,
            m1, m2, m3, Nat.add_comm]

/-- C3 witness: a loop with zero clients and an empty queue exits on the
first wake-up, having closed both descriptors exactly once. -/
theorem eventLoop_loop_exit_witness :
    (0 : Nat) = 0 ∧ ([] : List Fn) = [] ∧ (-1 : Int) = -1 ∧ (-1 : Int) = -1 ∧
      List.count Ev.closeWaitFd
        [Ev.wake, Ev.notifyAll, Ev.exitCheck, Ev.closeWaitFd, Ev.closePostFd] = 1 ∧
      List.count Ev.closePostFd
        [Ev.wake, Ev.notifyAll, Ev.exitCheck, Ev.closeWaitFd, Ev.closePostFd] = 1 ∧
      List.count Ev.exitCheck
          [Ev.wake, Ev.notifyAll, Ev.exitCheck, Ev.closeWaitFd, Ev.closePostFd] =
        List.count Ev.wake
          [Ev.wake, Ev.notifyAll, Ev.exitCheck, Ev.closeWaitFd, Ev.closePostFd] :=
  (eventLoop_loop_exit (fun _ p => p) [1] ⟨none, [], 0, 3, 4⟩
    [Ev.wake, Ev.notifyAll, Ev.exitCheck, Ev.closeWaitFd, Ev.closePostFd]
    ⟨none, [], 0, -1, -1⟩).1 rfl

/-! ### The background async dispatcher -/

theorem removeClientEvs_no_runAsync (clients : Nat) (f : Fn) (n : Nat)
    (b : Bool) : Ev.runAsync f n b ∉ removeClientEvs clients := by
  unfold removeClientEvs
  split <;> simp

/-- C4: the dispatcher spawned by `EventLoop::startAsyncThread` removes
deferred actions one at a time, each bracketed by its own client-count
increment and decrement (so the count is positive while every action
runs), runs every action with the EventLoop mutex released, and exits its
loop only in a state where — under the lock — the deferred queue is empty
and the client count is zero. -/
theorem asyncThread_dispatch (fuel : Nat) (ext : List (Nat × List Fn))
    (clients : Nat) (q : List Fn) (tr : List Ev) (c2 : Nat) (q2 : List Fn)
    (ex : Bool) (h : asyncThreadRun fuel ext clients q = (tr, c2, q2, ex)) :
    DispatchBlocks tr ∧
    (∀ f n b, Ev.runAsync f n b ∈ tr → 0 < n ∧ b = false) ∧
    (ex = true → c2 = 0 ∧ q2 = []) := by
  induction fuel generalizing ext clients q tr c2 q2 ex with
  | zero =>
    unfold asyncThreadRun at h
    simp only [Prod.mk.injEq] at h
    obtain ⟨rfl, rfl, rfl, rfl⟩ := h
    exact ⟨DispatchBlocks.nil, by simp, by simp⟩
  | succ fuel ih =>
    unfold asyncThreadRun at h
    rcases q with _ | ⟨f, rest⟩
    · dsimp only at h
      by_cases hc : clients = 0
      · rw [if_pos hc] at h
        simp only [Prod.mk.injEq] at h
        obtain ⟨rfl, rfl, rfl, rfl⟩ := h
        exact ⟨DispatchBlocks.nil, by simp, fun _ => ⟨rfl, rfl⟩⟩
      · rw [if_neg hc] at h
        rcases ext with _ | ⟨⟨c3, q3⟩, ext2⟩
        · dsimp only at h
          simp only [Prod.mk.injEq] at h
          obtain ⟨rfl, rfl, rfl, rfl⟩ := h
          exact ⟨DispatchBlocks.nil, by simp, by simp⟩
        · exact ih ext2 c3 q3 tr c2 q2 ex h
    · dsimp only at h
      rcases hrec : asyncThreadRun fuel ext clients rest with ⟨tr2, c3, q3, ex3⟩
      rw [hrec] at h
      simp only [Prod.mk.injEq] at h
      obtain ⟨rfl, rfl, rfl, rfl⟩ := h
      obtain ⟨hb, hmem, hex⟩ := ih ext clients rest tr2 c3 q3 ex3 hrec
      refine ⟨?_, ?_, hex⟩
      · simpa using DispatchBlocks.block f (clients + 1) tr2 hb
      · intro g n b hg
        simp only [List.cons_append, List.mem_cons, List.mem_append] at hg
        rcases hg with hg | hg | hg | hg
        · exact absurd hg (by simp)
        · obtain ⟨rfl, rfl, rfl⟩ := by
            simpa using hg
          exact ⟨Nat.succ_pos clients, rfl⟩
        · exact absurd hg (removeClientEvs_no_runAsync (clients + 1) g n b)
        · exact hmem g n b hg

/-- C4 witness: a dispatcher started with one queued action and no other
clients runs it with the count at 1 and then exits with queue empty and
count zero. -/
theorem asyncThread_dispatch_witness :
    DispatchBlocks [Ev.addClient, Ev.runAsync 5 1 false, Ev.removeClient,
        Ev.notifyAll, Ev.wakeWrite] ∧
      (∀ f n b, Ev.runAsync f n b ∈
        [Ev.addClient, Ev.runAsync 5 1 false, Ev.removeClient,
          Ev.notifyAll, Ev.wakeWrite] → 0 < n ∧ b = false) ∧
      (true = true → 0 = 0 ∧ ([] : List Fn) = []) :=
  asyncThread_dispatch 2 [] 0 [5]
    [Ev.addClient, Ev.runAsync 5 1 false, Ev.removeClient,
      Ev.notifyAll, Ev.wakeWrite] 0 [] true rfl

/-! ### Thread proxy teardown -/

/-- The ordered event trace of a joinable Thread proxy's destructor. -/
def threadDtorTrace : List ThreadEv :=
  [ThreadEv.lockWaiter, ThreadEv.clearWaiterPtr, ThreadEv.assertIdle,
   ThreadEv.clearMaps, ThreadEv.notifyWaiter, ThreadEv.unlockWaiter,
   ThreadEv.joinThread]

/-- C5: destroying a joinable Thread proxy performs, in order: lock the
Waiter, clear the shared Waiter pointer (after which — and not before —
the parked worker's wait predicate holds), assert the Waiter idle, clear
both per-thread capability maps before the join, notify, unlock, and join
the native thread; a Waiter with a call mid-flight trips the assertion;
and `makeThread(x)` followed immediately by destruction of the returned
proxy leaves the thread joined and removes the thread-table entry for `x`
before the join happens. -/
theorem threadProxy_dtor_ordered_shutdown :
    (∀ (s : ThreadProxyServer) (w : Waiter),
      s.m_thread_joinable = true → s.m_thread_context.waiter = some w →
      w.m_fn = none →
      ∃ s2, s.dtor = Except.ok (threadDtorTrace, s2) ∧
        workerWaitDone s.m_thread_context = false ∧
        workerWaitDone s2.m_thread_context = true ∧
        s2.m_thread_context.request_threads = [] ∧
        s2.m_thread_context.callback_threads = [] ∧
        s2.m_thread_joinable = false) ∧
    (threadDtorTrace.indexOf ThreadEv.lockWaiter <
        threadDtorTrace.indexOf ThreadEv.clearWaiterPtr ∧
      threadDtorTrace.indexOf ThreadEv.clearWaiterPtr <
        threadDtorTrace.indexOf ThreadEv.assertIdle ∧
      threadDtorTrace.indexOf ThreadEv.assertIdle <
        threadDtorTrace.indexOf ThreadEv.clearMaps ∧
      threadDtorTrace.indexOf ThreadEv.clearMaps <
        threadDtorTrace.indexOf ThreadEv.notifyWaiter ∧
      threadDtorTrace.indexOf ThreadEv.notifyWaiter <
        threadDtorTrace.indexOf ThreadEv.unlockWaiter ∧
      threadDtorTrace.indexOf ThreadEv.unlockWaiter <
        threadDtorTrace.indexOf ThreadEv.joinThread) ∧
    (∀ (s : ThreadProxyServer) (w : Waiter) (f : Fn),
      s.m_thread_joinable = true → s.m_thread_context.waiter = some w →
      w.m_fn = some f → s.dtor = Except.error "assert !waiter->m_fn") ∧
    (∀ (tn : String → String) (exe org : String),
      ∃ s2, makeThreadThenDestroy tn exe org =
          Except.ok (ThreadEv.removeTableEntry :: threadDtorTrace, [], s2) ∧
        s2.m_thread_joinable = false ∧
        s2.m_thread_context.waiter = none ∧
        (ThreadEv.removeTableEntry :: threadDtorTrace).indexOf
            ThreadEv.removeTableEntry <
          (ThreadEv.removeTableEntry :: threadDtorTrace).indexOf
            ThreadEv.joinThread) := by
  refine ⟨?_, by decide, ?_, ?_⟩
  · intro s w hj hw hidle
    unfold ThreadProxyServer.dtor
    rw [hj, hw]
    simp only [hidle, Bool.not_true, Bool.false_eq_true, if_false, ne_eq,
      not_true_eq_false, if_neg]
    refine ⟨{ m_thread_context :=
                { s.m_thread_context with
                  waiter := none, request_threads := [], callback_threads := [] },
              m_thread_joinable := false },
      rfl, ?_, rfl, rfl, rfl, rfl⟩
    simp [workerWaitDone, hw]
  · intro s w f hj hw hbusy
    unfold ThreadProxyServer.dtor
    rw [hj, hw]
    simp [hbusy]
  · intro tn exe org
    unfold makeThreadThenDestroy makeThread makeThreadWorkerInit
      ThreadProxyServer.dtor
    simp [threadDtorTrace]

/-- C5 witness: creating a worker for caller "b" and destroying its proxy
joins the thread, with the table entry removal preceding the join. -/
theorem threadProxy_dtor_ordered_shutdown_witness :
    ∃ s2, makeThreadThenDestroy (fun s => s) "a" "b" =
        Except.ok (ThreadEv.removeTableEntry :: threadDtorTrace, [], s2) ∧
      s2.m_thread_joinable = false ∧
      s2.m_thread_context.waiter = none ∧
      (ThreadEv.removeTableEntry :: threadDtorTrace).indexOf
          ThreadEv.removeTableEntry <
        (ThreadEv.removeTableEntry :: threadDtorTrace).indexOf
          ThreadEv.joinThread :=
  threadProxy_dtor_ordered_shutdown.2.2.2 (fun s => s) "a" "b"

/-! ### The post protocol invariant -/

theorem postInv_init (n : Nat) : PostInv n (PostInit n) := by
  refine ⟨?_, ?_, ?_, ?_⟩ <;> intro i hi <;> simp [PostInit] at hi ⊢

theorem postInv_step {n : Nat} {a : Actor n} {s s' : PostState n}
    (hstep : PostStep n a s s') (hinv : PostInv n s) : PostInv n s' := by
  obtain ⟨h1, h2, h3, h4⟩ := hinv
  cases hstep with
  | install i s hpc hpf =>
    refine ⟨fun j hj => ?_, fun j hj => ?_, fun j hj => ?_, fun j hj => ?_⟩ <;>
      dsimp only at hj ⊢
    · by_cases hij : j = i
      · subst hij
        simp [Function.update_same] at hj
      · simp only [Function.update_apply, if_neg hij] at hj
        exact ⟨fun hc => hij (Option.some.inj hc).symm, (h1 j hj).2⟩
    · by_cases hij : j = i
      · subst hij
        exact Or.inl ⟨rfl, (h1 j hpc).2⟩
      · simp only [Function.update_apply, if_neg hij] at hj
        rcases h2 j hj with ⟨hl, -⟩ | ⟨-, hr⟩
        · rw [hpf] at hl
          exact absurd hl (by simp)
        · exact Or.inr ⟨fun hc => hij (Option.some.inj hc).symm, hr⟩
    · by_cases hij : j = i
      · subst hij
        simp [Function.update_same] at hj
      · simp only [Function.update_apply, if_neg hij] at hj
        exact ⟨fun hc => hij (Option.some.inj hc).symm, (h3 j hj).2⟩
    · obtain rfl := Option.some.inj hj
      simp only [Function.update_same]
      exact Or.inl trivial
  | writeByte i s hpc =>
    refine ⟨fun j hj => ?_, fun j hj => ?_, fun j hj => ?_, fun j hj => ?_⟩ <;>
      dsimp only at hj ⊢
    · by_cases hij : j = i
      · subst hij
        simp [Function.update_same] at hj
      · simp only [Function.update_apply, if_neg hij] at hj
        exact h1 j hj
    · by_cases hij : j = i
      · subst hij
        exact h2 j (Or.inl hpc)
      · simp only [Function.update_apply, if_neg hij] at hj
        exact h2 j hj
    · by_cases hij : j = i
      · subst hij
        simp [Function.update_same] at hj
      · simp only [Function.update_apply, if_neg hij] at hj
        exact h3 j hj
    · by_cases hij : j = i
      · subst hij
        simp only [Function.update_same]
        exact Or.inr trivial
      · simp only [Function.update_apply, if_neg hij]
        exact h4 j hj
  | consume s hwb =>
    rcases hpf : s.m_post_fn with _ | k
    · refine ⟨fun j hj => ?_, fun j hj => ?_, fun j hj => ?_, fun j hj => ?_⟩ <;>
        simp only [hpf] at hj ⊢
      · exact ⟨by simp, (h1 j hj).2⟩
      · rcases h2 j hj with ⟨hl, -⟩ | ⟨-, hr⟩
        · rw [hpf] at hl
          exact absurd hl (by simp)
        · exact Or.inr ⟨by simp, hr⟩
      · exact ⟨by simp, (h3 j hj).2⟩
      · exact absurd hj (by simp)
    · have hk0 : s.runs k = 0 := by
        rcases h2 k (h4 k hpf) with ⟨-, h0⟩ | ⟨hne, -⟩
        · exact h0
        · exact absurd hpf hne
      refine ⟨fun j hj => ?_, fun j hj => ?_, fun j hj => ?_, fun j hj => ?_⟩ <;>
        simp only [hpf] at hj ⊢
      · have hjk : j ≠ k := fun hh => (h1 j hj).1 (by rw [hpf, hh])
        simp only [Function.update_apply, if_neg hjk]
        exact ⟨by simp, (h1 j hj).2⟩
      · by_cases hjk : j = k
        · subst hjk
          simp only [Function.update_same, hk0]
          exact Or.inr ⟨by simp, trivial⟩
        · simp only [Function.update_apply, if_neg hjk]
          rcases h2 j hj with ⟨hl, -⟩ | ⟨-, hr⟩
          · rw [hpf] at hl
            exact absurd (Option.some.inj hl).symm hjk
          · exact Or.inr ⟨by simp, hr⟩
      · have hjk : j ≠ k := fun hh => (h3 j hj).1 (by rw [hpf, hh])
        simp only [Function.update_apply, if_neg hjk]
        exact ⟨by simp, (h3 j hj).2⟩
      · exact absurd hj (by simp)
  | retrn i s hpc hpf =>
    refine ⟨fun j hj => ?_, fun j hj => ?_, fun j hj => ?_, fun j hj => ?_⟩ <;>
      dsimp only at hj ⊢
    · by_cases hij : j = i
      · subst hij
        simp [Function.update_same] at hj
      · simp only [Function.update_apply, if_neg hij] at hj
        exact h1 j hj
    · by_cases hij : j = i
      · subst hij
        simp [Function.update_same] at hj
      · simp only [Function.update_apply, if_neg hij] at hj
        exact h2 j hj
    · by_cases hij : j = i
      · subst hij
        refine ⟨hpf, ?_⟩
        rcases h2 j (Or.inr hpc) with ⟨hl, -⟩ | ⟨-, hr⟩
        · exact absurd hl hpf
        · exact hr
      · simp only [Function.update_apply, if_neg hij] at hj
        exact h3 j hj
    · have hji : j ≠ i := fun hji => hpf (hji ▸ hj)
      simp only [Function.update_apply, if_neg hji]
      exact h4 j hj
  | selfPost i s hpc =>
    have hni : s.m_post_fn ≠ some i := (h1 i hpc).1
    have h0i : s.runs i = 0 := (h1 i hpc).2
    refine ⟨fun j hj => ?_, fun j hj => ?_, fun j hj => ?_, fun j hj => ?_⟩ <;>
      dsimp only at hj ⊢
    · by_cases hij : j = i
      · subst hij
        simp [Function.update_same] at hj
      · simp only [Function.update_apply, if_neg hij] at hj
        simp only [Function.update_apply, if_neg hij]
        exact h1 j hj
    · by_cases hij : j = i
      · subst hij
        simp [Function.update_same] at hj
      · simp only [Function.update_apply, if_neg hij] at hj
        simp only [Function.update_apply, if_neg hij]
        exact h2 j hj
    · by_cases hij : j = i
      · subst hij
        simp only [Function.update_same, h0i]
        exact ⟨hni, trivial⟩
      · simp only [Function.update_apply, if_neg hij] at hj
        simp only [Function.update_apply, if_neg hij]
        exact h3 j hj
    · have hji : j ≠ i := fun hji => hni (hji ▸ hj)
      simp only [Function.update_apply, if_neg hji]
      exact h4 j hj

theorem postReach_inv {n : Nat} {s : PostState n} (h : PostReach n s) :
    PostInv n s := by
  induction h with
  | init => exact postInv_init n
  | step a s s' hr hstep ih => exact postInv_step hstep ih

/-- C2: in every reachable interleaving of the post protocol, each posted
function is executed at most once and exactly once by the time its `post`
call returns (so the caller observes completion before `post` returns); at
most one posted call is in flight at a time; a function's execution count
only ever changes in a loop-thread step, and then by exactly one (posted
functions run only on the loop thread); and a `post` made on the loop
thread itself is a single synchronous step that runs the function and
returns at once. -/
theorem eventLoop_post_protocol :
    (∀ (n : Nat) (s : PostState n), PostReach n s →
      (∀ i, s.runs i ≤ 1) ∧
      (∀ i, s.pc i = CallerPc.done → s.runs i = 1) ∧
      (∀ i j, InFlight s i → InFlight s j → i = j)) ∧
    (∀ (n : Nat) (a : Actor n) (s s' : PostState n) (i : Fin n),
      PostStep n a s s' → s'.runs i ≠ s.runs i →
      a = Actor.loopThread ∧ s'.runs i = s.runs i + 1) ∧
    (∀ (n : Nat) (i : Fin n) (s : PostState n), s.pc i = CallerPc.start →
      PostStep n Actor.loopThread s
        { s with pc := Function.update s.pc i CallerPc.done,
                 runs := Function.update s.runs i (s.runs i + 1) }) := by
  refine ⟨?_, ?_, ?_⟩
  · intro n s hreach
    obtain ⟨h1, h2, h3, h4⟩ := postReach_inv hreach
    refine ⟨?_, fun i hd => (h3 i hd).2, ?_⟩
    · intro i
      rcases hpc : s.pc i with _ | _ | _ | _
      · simp [(h1 i hpc).2]
      · rcases h2 i (Or.inl hpc) with ⟨-, h0⟩ | ⟨-, hone⟩
        · simp [h0]
        · simp [hone]
      · rcases h2 i (Or.inr hpc) with ⟨-, h0⟩ | ⟨-, hone⟩
        · simp [h0]
        · simp [hone]
      · simp [(h3 i hpc).2]
    · rintro i j ⟨hpci, hri⟩ ⟨hpcj, hrj⟩
      rcases h2 i hpci with ⟨hfi, -⟩ | ⟨-, honei⟩
      · rcases h2 j hpcj with ⟨hfj, -⟩ | ⟨-, honej⟩
        · exact Option.some.inj (hfi.symm.trans hfj)
        · exact absurd honej (by simp [hrj])
      · exact absurd honei (by simp [hri])
  · intro n a s s' i hstep hne
    cases hstep with
    | install i2 s2 hpc hpf => exact absurd rfl hne
    | writeByte i2 s2 hpc => exact absurd rfl hne
    | consume s2 hwb =>
      refine ⟨rfl, ?_⟩
      rcases hpf : s.m_post_fn with _ | k <;> simp only [hpf] at hne ⊢
      · exact absurd rfl hne
      · by_cases hik : i = k
        · subst hik
          simp only [Function.update_same]
        · simp only [Function.update_apply, if_neg hik] at hne
          exact absurd rfl hne
    | retrn i2 s2 hpc hpf => exact absurd rfl hne
    | selfPost i2 s2 hpc =>
      refine ⟨rfl, ?_⟩
      by_cases hik : i = i2
      · subst hik
        simp only [Function.update_same]
      · simp only [Function.update_apply, if_neg hik] at hne
        exact absurd rfl hne
  · exact fun n i s hpc => PostStep.selfPost i s hpc

/-- C2 witness: after a full install / wake-write / loop-consume / return
round for a single caller, that caller is done with its function executed
exactly once. -/
theorem eventLoop_post_protocol_witness :
    (∀ i, postDemo4.runs i ≤ 1) ∧
      (∀ i, postDemo4.pc i = CallerPc.done → postDemo4.runs i = 1) ∧
      (∀ i j, InFlight postDemo4 i → InFlight postDemo4 j → i = j) :=
  eventLoop_post_protocol.1 1 postDemo4
    (PostReach.step _ _ _
      (PostReach.step _ _ _
        (PostReach.step _ _ _
          (PostReach.step _ _ _ PostReach.init
            (PostStep.install 0 (PostInit 1) rfl rfl))
          (PostStep.writeByte 0 postDemo1 (by decide)))
        (PostStep.consume postDemo2 (by decide)))
      (PostStep.retrn 0 postDemo3 (by decide) (by decide)))

end BitcoinCapnp
